import Mathlib

/-!
Verification of the tool-invocation dispatch layer (`src/type/tools.py`):
`ToolHandler.__call__` (media-argument normalization and response decoding)
and `ToolRegistry` (registration, replica selection, lookups).

The Python code is embedded shallowly:
* Python values appearing as media arguments become the inductive `PyVal`.
* The filesystem is a parameter `FS` (an existence predicate plus file
  contents), mirroring `os.path.exists` and `open(..., 'rb').read()`.
* Raised Python exceptions become the `Except PyExn` error channel.
* The FastMCP transport is a parameter; `toolHandlerCall` counts how many
  times it is invoked (the code has exactly one call site, inside the
  `async with Client(...)` block).
* `random.randint(0, len(urls) - 1)` becomes an explicit `rand : Nat`
  parameter reduced modulo the list length, so that every index is reached
  by some choice.
* Python `dict`s (insertion-ordered, key-unique) become association lists
  with `insertD` (update in place if the key is present, append otherwise).
-/

/-- Python values that can appear as a media argument (`images` / `audios`). -/
inductive PyVal where
  | str (s : String)
  | bytes (b : List Nat)
  | list (xs : List PyVal)
  | dict (kvs : List (String × PyVal))
  | other (typeName : String)

/-- Python exceptions that the embedded code can raise. -/
inductive PyExn where
  | fileNotFound (path : String)
  | indexError
deriving DecidableEq

/-- The filesystem seen by the handler: `os.path.exists` and file contents. -/
structure FS where
  pathExists : String → Bool
  readBytes : String → List Nat

/-- Alphabet used by `base64.b64encode`. -/
def b64Alphabet : List Char :=
  "ABCDEFGHIJKLMNOPQRSTUVWXYZabcdefghijklmnopqrstuvwxyz0123456789+/".toList

/-- Character of the base64 alphabet at a 6-bit index. -/
def b64Char (n : Nat) : Char := b64Alphabet.getD n 'A'

/-- Standard base64 of a byte sequence, as `base64.b64encode(...).decode('utf-8')`. -/
def b64encode : List Nat → String
  | [] => ""
  | [a] =>
      String.mk [b64Char (a / 4), b64Char (a % 4 * 16)] ++ "=="
  | [a, b] =>
      String.mk [b64Char (a / 4), b64Char (a % 4 * 16 + b / 16), b64Char (b % 16 * 4)] ++ "="
  | a :: b :: c :: rest =>
      String.mk [b64Char (a / 4), b64Char (a % 4 * 16 + b / 16),
        b64Char (b % 16 * 4 + c / 64), b64Char (c % 64)] ++ b64encode rest

/-- First binding of a key in an association list (Python `d[k]` / `k in d`). -/
def lookupA {β : Type} : List (String × β) → String → Option β
  | [], _ => none
  | (k, v) :: rest, key => if key = k then some v else lookupA rest key

/-- Python `d[k] = v` on an insertion-ordered dict: update in place when the
key is present, append otherwise. -/
def insertD {β : Type} (m : List (String × β)) (k : String) (v : β) :
    List (String × β) :=
  if k ∈ m.map Prod.fst then
    m.map (fun p => if p.1 = k then (k, v) else p)
  else
    m ++ [(k, v)]

/-- The apostrophe character, used to render Python `repr` of string lists. -/
def quoteCh : String := String.mk [Char.ofNat 39]

/-- Python rendering of the `media_types` list inside the f-string at
line 105 of `tools.py`. -/
def mediaTypesRepr : String :=
  "[" ++ quoteCh ++ "images" ++ quoteCh ++ ", " ++ quoteCh ++ "audios" ++ quoteCh ++ "]"

/-- Loop body for the `dict` branch (lines 93-102): iterate over the
mapping's values; a string value is opened directly (raising if absent) and
encoded, a bytes value is encoded — each hit overwrites the slot — and any
other value returns the fixed unsupported-type message.  The accumulator is
the current value of `kwargs[media_type]`; it starts as the dict itself, so
an empty dict leaves the slot unchanged. -/
def dictLoop (fs : FS) : List (String × PyVal) → PyVal → Except PyExn (Sum String PyVal)
  | [], acc => .ok (.inr acc)
  | (_, value) :: rest, _acc =>
      match value with
      | .str s =>
          if fs.pathExists s then
            dictLoop fs rest (.list [.str (b64encode (fs.readBytes s))])
          else
            .error (.fileNotFound s)
      | .bytes b => dictLoop fs rest (.list [.str (b64encode b)])
      | _ => .ok (.inl "Unsupported image type provided.")

/-- Normalization of one media argument (lines 73-105 of `tools.py`).
`Sum.inl` is an early string return (the call aborts before any network
I/O), `Sum.inr` is the new value stored back into `kwargs`. -/
def processOne (fs : FS) (mediaType : String) (v0 : PyVal) :
    Except PyExn (Sum String PyVal) :=
  match v0 with
  | .list [] =>
      if mediaType = "images" then
        .ok (.inl ("No " ++ mediaType ++
          " provided. For images, use the camera tool to capture an image first."))
      else
        .ok (.inl ("No " ++ mediaType ++
          " provided. For audios, use the microphone tool to record an audio first."))
  | _ =>
    let v := match v0 with
      | .list (x :: _) => x
      | w => w
    match v with
    | .str s =>
        if fs.pathExists s then
          .ok (.inr (.list [.str (b64encode (fs.readBytes s))]))
        else
          let s2 := String.mk (s.data.dropWhile (fun c => c == '.'))
          if fs.pathExists s2 then
            .ok (.inr (.list [.str (b64encode (fs.readBytes s2))]))
          else
            .ok (.inl ("File not found: " ++ s2))
    | .bytes b => .ok (.inr (.list [.str (b64encode b)]))
    | .dict kvs => dictLoop fs kvs (.dict kvs)
    | _ =>
        .ok (.inl ("Unsupported " ++ mediaType ++
          " type provided. Please provide a list of base64-encoded " ++
          mediaTypesRepr ++ " or file paths."))

/-- Update the value stored under a key that is already present. -/
def setKw (kwargs : List (String × PyVal)) (k : String) (v : PyVal) :
    List (String × PyVal) :=
  kwargs.map (fun p => if p.1 = k then (k, v) else p)

/-- The `for media_type in media_types` loop of `ToolHandler.__call__`:
process each recognized media key present in `kwargs`, in order. -/
def normalizeLoop (fs : FS) :
    List String → List (String × PyVal) →
    Except PyExn (Sum String (List (String × PyVal)))
  | [], kwargs => .ok (.inr kwargs)
  | mt :: rest, kwargs =>
      match lookupA kwargs mt with
      | none => normalizeLoop fs rest kwargs
      | some v =>
          match processOne fs mt v with
          | .error e => .error e
          | .ok (.inl s) => .ok (.inl s)
          | .ok (.inr v2) => normalizeLoop fs rest (setKw kwargs mt v2)

/-- Full media normalization, over the fixed list `['images', 'audios']`. -/
def normalizeMedia (fs : FS) (kwargs : List (String × PyVal)) :
    Except PyExn (Sum String (List (String × PyVal))) :=
  normalizeLoop fs ["images", "audios"] kwargs

/-- One content item of a tool response (`mcp.types`). -/
inductive ContentItem where
  | text (t : String)
  | image (data : String) (mimeType : String)
  | audio (data : String) (format : Option String)
  | other

/-- The `content` field of a structured response: a bare item or a list. -/
inductive RespContent where
  | single (c : ContentItem)
  | multi (cs : List ContentItem)

/-- A transport-level tool response: some backends short-circuit to a bare
string, otherwise a structured result with content. -/
inductive ToolResponse where
  | bareStr (s : String)
  | result (content : RespContent)

/-- Decoding of one content item (lines 120-162 of `tools.py`).  The image
and audio arms write the base64-decoded payload to a scratch file as a side
effect and return its path; the path is built from the scratch directory, a
fresh unique name (the generated uuid4, passed here as a parameter) and the
extension.  An audio item with an empty payload returns Python `None`. -/
def decodeContentItem (tempDir uuid : String) : ContentItem → Except PyExn (Option String)
  | .text t => .ok (some t)
  | .image _data _mime => .ok (some (tempDir ++ "/" ++ uuid ++ ".png"))
  | .audio data fmt =>
      if data.length = 0 then .ok none
      else .ok (some (tempDir ++ "/" ++ uuid ++ "." ++ fmt.getD "wav"))
  | .other => .ok (some "Undefined content type returned from the tool.")

/-- Decoding of a full tool response (lines 113-162): a bare string passes
through unchanged; otherwise only the first content item is considered
(`content[0]` raises IndexError on an empty list). -/
def decodeResponse (tempDir uuid : String) : ToolResponse → Except PyExn (Option String)
  | .bareStr s => .ok (some s)
  | .result (.single c) => decodeContentItem tempDir uuid c
  | .result (.multi []) => .error .indexError
  | .result (.multi (c :: _)) => decodeContentItem tempDir uuid c

/-- `ToolHandler.__call__`: normalize the media arguments; on an early
string return or a raised exception the transport is never touched;
otherwise perform exactly one remote call and decode its response.  The
second component counts transport invocations. -/
def toolHandlerCall (fs : FS)
    (transport : List (String × PyVal) → ToolResponse)
    (tempDir uuid : String) (kwargs : List (String × PyVal)) :
    Except PyExn (Option String) × Nat :=
  match normalizeMedia fs kwargs with
  | .error e => (.error e, 0)
  | .ok (.inl s) => (.ok (some s), 0)
  | .ok (.inr kw) => (decodeResponse tempDir uuid (transport kw), 1)

/-- The `tool_item` descriptor: a dict whose `['function']['name']` entry is
the tool name; `payload` stands for the rest of the descriptor and keeps
distinct descriptors distinguishable. -/
structure ToolItem where
  name : String
  payload : Nat
deriving DecidableEq

/-- A registrable handler: its bound address and its descriptor. -/
structure ToolHandler where
  url : String
  tool_item : ToolItem
deriving DecidableEq

/-- The composite key `f"{tool_name}@{tool_url}"` used by the registry. -/
def regKey (t : ToolHandler) : String := t.tool_item.name ++ "@" ++ t.url

/-- `ToolRegistry` state: the name set (`self.tools`, modelled as an
insertion-ordered duplicate-free list, only membership and size are
observed), the per-name replica lists (`self.urls`) and the invoker map
(`self.handlers`). -/
structure ToolRegistry where
  tools : List String
  urls : List (String × List String)
  handlers : List (String × ToolHandler)
deriving DecidableEq

/-- `ToolRegistry.__init__`: everything empty. -/
def regEmpty : ToolRegistry := { tools := [], urls := [], handlers := [] }

/-- `ToolRegistry.register`: add the name to the name set, append the url to
the name's replica list (creating it if absent), and store the handler under
the composite key, overwriting any previous binding of that key. -/
def register (r : ToolRegistry) (tool : ToolHandler) : ToolRegistry :=
  let tool_name := tool.tool_item.name
  let tool_url := tool.url
  { tools := if tool_name ∈ r.tools then r.tools else r.tools ++ [tool_name]
    urls :=
      match lookupA r.urls tool_name with
      | none => insertD r.urls tool_name [tool_url]
      | some us => insertD r.urls tool_name (us ++ [tool_url])
    handlers := insertD r.handlers (tool_name ++ "@" ++ tool_url) tool }

/-- `ToolRegistry.get_url`: `None` for an unknown name, otherwise the entry
of the replica list at `random.randint(0, len(urls) - 1)`; the random draw
is an explicit parameter reduced modulo the length. -/
def getUrl (r : ToolRegistry) (tool_name : String) (rand : Nat) : Option String :=
  match lookupA r.urls tool_name with
  | none => none
  | some us => us[rand % us.length]?

/-- `ToolRegistry.get_tool_items`: the descriptors of the invoker map, in
insertion order of the composite keys. -/
def getToolItems (r : ToolRegistry) : List ToolItem :=
  r.handlers.map (fun p => p.2.tool_item)

/-- `ToolRegistry.get_handler_by`: exact lookup of the composite key (the
`if tool_name is None or url is None` line of the source is a no-op — its
`None` is evaluated and discarded). -/
def getHandlerBy (r : ToolRegistry) (tool_name url : String) : Option ToolHandler :=
  match lookupA r.handlers (tool_name ++ "@" ++ url) with
  | some t => some t
  | none => none

/-- `ToolRegistry.__len__`: size of the name set. -/
def regLen (r : ToolRegistry) : Nat := r.tools.length

/-- A registry built by a sequence of `register` calls from the empty one. -/
def regFold (ts : List ToolHandler) : ToolRegistry :=
  ts.foldl register regEmpty

/-- Filesystem with no files at all. -/
def fsNone : FS := { pathExists := fun _ => false, readBytes := fun _ => [] }

/-- Filesystem whose only path is `.p` (exercises the dot-stripping retry). -/
def fsDotP : FS := { pathExists := fun s => s == ".p", readBytes := fun _ => [7] }

/-- A stub transport: every call answers with a fixed bare string. -/
def tp0 : List (String × PyVal) → ToolResponse := fun _ => .bareStr "stub"

/-- Modelled from the spec: the retry path of §4.2 rule 3 as the spec words
it — the path with "a single leading dot stripped".  Used only to compare
the specified retry against the `lstrip('.')` the code performs. -/
def stripOneLeadingDot (s : String) : String :=
  match s.data with
  | '.' :: rest => String.mk rest
  | _ => s

/-- In the mapping branch: value shapes the loop encodes without aborting
(a string naming an existing file, or bytes). -/
def goodVal (fs : FS) : PyVal → Bool
  | .str s => fs.pathExists s
  | .bytes _ => true
  | _ => false

/-- Byte content that the mapping branch encodes for a value. -/
def valBytes (fs : FS) : PyVal → List Nat
  | .str s => fs.readBytes s
  | .bytes b => b
  | _ => []

/-- Whether a value is a Python `str` or `bytes`. -/
def strOrBytes : PyVal → Bool
  | .str _ => true
  | .bytes _ => true
  | _ => false

/-- Handlers used in concrete registry scenarios. -/
def hT1 : ToolHandler := { url := "u", tool_item := { name := "t", payload := 1 } }

/-- Second handler advertising the same `(name, address)` pair as `hT1`. -/
def hT2 : ToolHandler := { url := "u", tool_item := { name := "t", payload := 2 } }

/-- Handler whose tool name itself contains an `@`, registered at address
`c`: its composite key collides with the pair `("a", "b@c")`. -/
def hA : ToolHandler := { url := "c", tool_item := { name := "a@b", payload := 3 } }

/-- Handler for the key-collision scenario of the implicit-claim check. -/
def hB : ToolHandler := { url := "z", tool_item := { name := "x@y", payload := 4 } }

/-- Handlers for witness registries: two distinct names at distinct urls. -/
def hW1 : ToolHandler := { url := "u1", tool_item := { name := "t1", payload := 5 } }

/-- Second witness handler, distinct name and url from `hW1`. -/
def hW2 : ToolHandler := { url := "u2", tool_item := { name := "t2", payload := 6 } }

/-- Handler with the same tool name as `hW1` but a different address. -/
def hW1b : ToolHandler := { url := "u2", tool_item := { name := "t1", payload := 7 } }

/-- The two registry invariants of the data-model section: every name in the
replica-address map has at least one address, and every composite key of the
invoker map decomposes as `name ++ "@" ++ url` with the name bound in the
replica-address map. -/
def RegInv (r : ToolRegistry) : Prop :=
  (∀ n us, lookupA r.urls n = some us → us ≠ []) ∧
  (∀ k, k ∈ r.handlers.map Prod.fst →
    ∃ n u us, k = n ++ "@" ++ u ∧ lookupA r.urls n = some us)

theorem lookupA_cons {β : Type} (a : String × β) (rest : List (String × β)) (key : String) :
    lookupA (a :: rest) key = if key = a.1 then some a.2 else lookupA rest key := by
  obtain ⟨a1, a2⟩ := a
  rfl

theorem lookupA_not_mem {β : Type} (m : List (String × β)) (key : String)
    (h : key ∉ m.map Prod.fst) : lookupA m key = none := by
  induction m with
  | nil => rfl
  | cons a rest ih =>
      rw [lookupA_cons]
      simp only [List.map_cons, List.mem_cons, not_or] at h
      rw [if_neg h.1]
      exact ih h.2

theorem lookupA_append {β : Type} (m1 m2 : List (String × β)) (key : String) :
    lookupA (m1 ++ m2) key =
      match lookupA m1 key with
      | some v => some v
      | none => lookupA m2 key := by
  induction m1 with
  | nil => rfl
  | cons a rest ih =>
      rw [List.cons_append, lookupA_cons, lookupA_cons]
      by_cases h : key = a.1
      · rw [if_pos h, if_pos h]
      · rw [if_neg h, if_neg h, ih]

theorem lookupA_map_update_ne {β : Type} (m : List (String × β)) (k k2 : String) (v : β)
    (h : k2 ≠ k) :
    lookupA (m.map (fun p => if p.1 = k then (k, v) else p)) k2 = lookupA m k2 := by
  induction m with
  | nil => rfl
  | cons a rest ih =>
      rw [List.map_cons, lookupA_cons, lookupA_cons]
      by_cases ha : a.1 = k
      · rw [if_pos ha]
        have : k2 ≠ (k, v).1 := h
        rw [if_neg this, if_neg (ha ▸ h), ih]
      · rw [if_neg ha, ih]

theorem lookupA_map_update_self {β : Type} (m : List (String × β)) (k : String) (v : β)
    (h : k ∈ m.map Prod.fst) :
    lookupA (m.map (fun p => if p.1 = k then (k, v) else p)) k = some v := by
  induction m with
  | nil => simp at h
  | cons a rest ih =>
      rw [List.map_cons, lookupA_cons]
      by_cases ha : a.1 = k
      · rw [if_pos ha]
        rw [if_pos rfl]
      · rw [if_neg ha, if_neg (fun hk => ha hk.symm)]
        simp only [List.map_cons, List.mem_cons] at h
        exact ih (h.resolve_left (fun hk => ha hk.symm))

theorem lookupA_insertD {β : Type} (m : List (String × β)) (k k2 : String) (v : β) :
    lookupA (insertD m k v) k2 = if k2 = k then some v else lookupA m k2 := by
  unfold insertD
  by_cases hk : k ∈ m.map Prod.fst
  · rw [if_pos hk]
    by_cases h2 : k2 = k
    · subst h2
      rw [if_pos rfl]
      exact lookupA_map_update_self m k2 v hk
    · rw [if_neg h2]
      exact lookupA_map_update_ne m k k2 v h2
  · rw [if_neg hk, lookupA_append]
    by_cases h2 : k2 = k
    · subst h2
      rw [lookupA_not_mem m k2 hk, if_pos rfl, lookupA_cons, if_pos rfl]
    · rw [if_neg h2]
      cases hl : lookupA m k2 with
      | some w => rfl
      | none =>
          simp only []
          rw [lookupA_cons, if_neg h2]
          rfl

theorem keys_insertD {β : Type} (m : List (String × β)) (k : String) (v : β) :
    (insertD m k v).map Prod.fst =
      if k ∈ m.map Prod.fst then m.map Prod.fst else m.map Prod.fst ++ [k] := by
  unfold insertD
  by_cases hk : k ∈ m.map Prod.fst
  · rw [if_pos hk, if_pos hk, List.map_map]
    refine List.map_congr_left (fun p _ => ?_)
    by_cases hp : p.1 = k
    · simp only [Function.comp_apply, if_pos hp]
      exact hp.symm
    · simp only [Function.comp_apply, if_neg hp]
  · rw [if_neg hk, if_neg hk, List.map_append]
    rfl

theorem getLast?_cons_of_some {α : Type} (x : α) (l : List α) (y : α)
    (h : l.getLast? = some y) : (x :: l).getLast? = some y := by
  cases l with
  | nil => simp at h
  | cons b bs => rw [List.getLast?_cons_cons]; exact h

theorem register_handlers (r : ToolRegistry) (t : ToolHandler) :
    (register r t).handlers = insertD r.handlers (regKey t) t := rfl

theorem register_tools (r : ToolRegistry) (t : ToolHandler) :
    (register r t).tools =
      if t.tool_item.name ∈ r.tools then r.tools else r.tools ++ [t.tool_item.name] := rfl

theorem register_urls (r : ToolRegistry) (t : ToolHandler) :
    (register r t).urls =
      match lookupA r.urls t.tool_item.name with
      | none => insertD r.urls t.tool_item.name [t.url]
      | some us => insertD r.urls t.tool_item.name (us ++ [t.url]) := rfl

theorem lookupA_register_urls (r : ToolRegistry) (t : ToolHandler) (n : String) :
    lookupA (register r t).urls n =
      if n = t.tool_item.name then
        match lookupA r.urls t.tool_item.name with
        | none => some [t.url]
        | some us => some (us ++ [t.url])
      else lookupA r.urls n := by
  rw [register_urls]
  cases h : lookupA r.urls t.tool_item.name with
  | none =>
      simp only []
      rw [lookupA_insertD]
  | some us =>
      simp only []
      rw [lookupA_insertD]

theorem lookup_regFold_handlers (ts : List ToolHandler) (r : ToolRegistry) (k : String) :
    lookupA (ts.foldl register r).handlers k =
      match (ts.filter (fun t => regKey t == k)).getLast? with
      | some t => some t
      | none => lookupA r.handlers k := by
  induction ts generalizing r with
  | nil => rfl
  | cons t rest ih =>
      rw [List.foldl_cons, ih, List.filter_cons]
      have hreg : lookupA (register r t).handlers k =
          if k = regKey t then some t else lookupA r.handlers k := by
        rw [register_handlers, lookupA_insertD]
      by_cases hb : regKey t = k
      · rw [if_pos (by simpa using hb)]
        cases hlast : (rest.filter (fun t2 => regKey t2 == k)).getLast? with
        | some t2 =>
            rw [getLast?_cons_of_some t _ t2 hlast]
        | none =>
            have : rest.filter (fun t2 => regKey t2 == k) = [] :=
              List.getLast?_eq_none_iff.mp hlast
            rw [this, List.getLast?_singleton, hreg, if_pos hb.symm]
      · rw [if_neg (by simpa using hb)]
        cases hlast : (rest.filter (fun t2 => regKey t2 == k)).getLast? with
        | some t2 => rfl
        | none =>
            rw [hreg, if_neg (fun he => hb he.symm)]

theorem regFold_handlers_aux (ts : List ToolHandler) (r : ToolRegistry)
    (h : (r.handlers.map Prod.fst ++ ts.map regKey).Nodup) :
    (ts.foldl register r).handlers = r.handlers ++ ts.map (fun t => (regKey t, t)) := by
  induction ts generalizing r with
  | nil => simp
  | cons t rest ih =>
      have hsplit := List.nodup_append.mp h
      have hfresh : regKey t ∉ r.handlers.map Prod.fst := by
        intro hin
        exact hsplit.2.2 hin (List.mem_cons_self _ _)
      have hstep : (register r t).handlers = r.handlers ++ [(regKey t, t)] := by
        rw [register_handlers]
        unfold insertD
        rw [if_neg hfresh]
      have hkeys : (register r t).handlers.map Prod.fst =
          r.handlers.map Prod.fst ++ [regKey t] := by
        rw [hstep, List.map_append]
        rfl
      rw [List.foldl_cons, ih (register r t) (by
        rw [hkeys, List.append_assoc]
        simpa using h), hstep, List.append_assoc]
      rfl

theorem regFold_tools_aux (ts : List ToolHandler) (r : ToolRegistry)
    (h : (r.tools ++ ts.map (fun t => t.tool_item.name)).Nodup) :
    (ts.foldl register r).tools = r.tools ++ ts.map (fun t => t.tool_item.name) := by
  induction ts generalizing r with
  | nil => simp
  | cons t rest ih =>
      have hsplit := List.nodup_append.mp h
      have hfresh : t.tool_item.name ∉ r.tools := by
        intro hin
        exact hsplit.2.2 hin (List.mem_cons_self _ _)
      have hstep : (register r t).tools = r.tools ++ [t.tool_item.name] := by
        rw [register_tools, if_neg hfresh]
      rw [List.foldl_cons, ih (register r t) (by
        rw [hstep, List.append_assoc]
        simpa using h), hstep, List.append_assoc]
      rfl

theorem register_urls_mono (r : ToolRegistry) (t : ToolHandler) (n : String)
    (us : List String) (h : lookupA r.urls n = some us) :
    ∃ extra, lookupA (register r t).urls n = some (us ++ extra) := by
  rw [lookupA_register_urls]
  by_cases hn : n = t.tool_item.name
  · rw [if_pos hn]
    rw [hn] at h
    rw [h]
    exact ⟨[t.url], rfl⟩
  · rw [if_neg hn]
    exact ⟨[], by rw [h, List.append_nil]⟩

theorem register_urls_self (r : ToolRegistry) (t : ToolHandler) :
    ∃ us, lookupA (register r t).urls t.tool_item.name = some us ∧ us ≠ [] := by
  rw [lookupA_register_urls, if_pos rfl]
  cases h : lookupA r.urls t.tool_item.name with
  | none => exact ⟨[t.url], rfl, by simp⟩
  | some us0 => exact ⟨us0 ++ [t.url], rfl, by simp⟩

theorem register_tools_mono (r : ToolRegistry) (t : ToolHandler) (n : String)
    (h : n ∈ r.tools) : n ∈ (register r t).tools := by
  rw [register_tools]
  by_cases hm : t.tool_item.name ∈ r.tools
  · rw [if_pos hm]
    exact h
  · rw [if_neg hm]
    exact List.mem_append_left _ h

theorem register_handlers_keys_mono (r : ToolRegistry) (t : ToolHandler) (k : String)
    (h : k ∈ r.handlers.map Prod.fst) : k ∈ (register r t).handlers.map Prod.fst := by
  rw [register_handlers, keys_insertD]
  by_cases hm : regKey t ∈ r.handlers.map Prod.fst
  · rw [if_pos hm]
    exact h
  · rw [if_neg hm]
    exact List.mem_append_left _ h

theorem regInv_empty : RegInv regEmpty := by
  constructor
  · intro n us h
    exact absurd h (by simp [regEmpty, lookupA])
  · intro k hk
    simp [regEmpty] at hk

theorem regInv_register (r : ToolRegistry) (t : ToolHandler) (h : RegInv r) :
    RegInv (register r t) := by
  obtain ⟨h1, h2⟩ := h
  constructor
  · intro n us hl
    rw [lookupA_register_urls] at hl
    by_cases hn : n = t.tool_item.name
    · rw [if_pos hn] at hl
      cases hu : lookupA r.urls t.tool_item.name with
      | none =>
          rw [hu] at hl
          simp only [Option.some.injEq] at hl
          subst hl
          simp
      | some us0 =>
          rw [hu] at hl
          simp only [Option.some.injEq] at hl
          subst hl
          simp
    · rw [if_neg hn] at hl
      exact h1 n us hl
  · intro k hk
    rw [register_handlers, keys_insertD] at hk
    by_cases hmem : regKey t ∈ r.handlers.map Prod.fst
    · rw [if_pos hmem] at hk
      obtain ⟨n, u, us, he, hlook⟩ := h2 k hk
      obtain ⟨extra, hlook2⟩ := register_urls_mono r t n us hlook
      exact ⟨n, u, us ++ extra, he, hlook2⟩
    · rw [if_neg hmem] at hk
      rcases List.mem_append.mp hk with hold | hnew
      · obtain ⟨n, u, us, he, hlook⟩ := h2 k hold
        obtain ⟨extra, hlook2⟩ := register_urls_mono r t n us hlook
        exact ⟨n, u, us ++ extra, he, hlook2⟩
      · obtain ⟨us, hus, _⟩ := register_urls_self r t
        refine ⟨t.tool_item.name, t.url, us, ?_, hus⟩
        simpa using hnew

theorem regInv_fold (ts : List ToolHandler) (r : ToolRegistry) (h : RegInv r) :
    RegInv (ts.foldl register r) := by
  induction ts generalizing r with
  | nil => exact h
  | cons t rest ih => exact ih (register r t) (regInv_register r t h)

theorem dictLoop_last_good (fs : FS) (init : List (String × PyVal))
    (lastp : String × PyVal) (acc : PyVal)
    (hinit : ∀ p ∈ init, goodVal fs p.2 = true) (hlast : goodVal fs lastp.2 = true) :
    dictLoop fs (init ++ [lastp]) acc =
      .ok (.inr (.list [.str (b64encode (valBytes fs lastp.2))])) := by
  induction init generalizing acc with
  | nil =>
      obtain ⟨k, v⟩ := lastp
      cases v with
      | str s =>
          simp only [goodVal] at hlast
          simp [dictLoop, hlast, valBytes]
      | bytes b => simp [dictLoop, valBytes]
      | list xs => simp [goodVal] at hlast
      | dict kvs => simp [goodVal] at hlast
      | other tn => simp [goodVal] at hlast
  | cons p init ih =>
      have hp : goodVal fs p.2 = true := hinit p (List.mem_cons_self _ _)
      have htail : ∀ q ∈ init, goodVal fs q.2 = true :=
        fun q hq => hinit q (List.mem_cons_of_mem _ hq)
      obtain ⟨k, v⟩ := p
      cases v with
      | str s =>
          simp only [goodVal] at hp
          simp only [List.cons_append, dictLoop, hp, if_true]
          exact ih _ htail
      | bytes b =>
          simp only [List.cons_append, dictLoop]
          exact ih _ htail
      | list xs => simp [goodVal] at hp
      | dict kvs => simp [goodVal] at hp
      | other tn => simp [goodVal] at hp

theorem dictLoop_unsupported (fs : FS) (pre : List (String × PyVal)) (k : String)
    (bad : PyVal) (rest : List (String × PyVal)) (acc : PyVal)
    (hpre : ∀ p ∈ pre, goodVal fs p.2 = true) (hbad : strOrBytes bad = false) :
    dictLoop fs (pre ++ (k, bad) :: rest) acc =
      .ok (.inl "Unsupported image type provided.") := by
  induction pre generalizing acc with
  | nil =>
      cases bad with
      | str s => simp [strOrBytes] at hbad
      | bytes b => simp [strOrBytes] at hbad
      | list xs => simp [dictLoop]
      | dict kvs => simp [dictLoop]
      | other tn => simp [dictLoop]
  | cons p pre ih =>
      have hp : goodVal fs p.2 = true := hpre p (List.mem_cons_self _ _)
      have htail : ∀ q ∈ pre, goodVal fs q.2 = true :=
        fun q hq => hpre q (List.mem_cons_of_mem _ hq)
      obtain ⟨k2, v⟩ := p
      cases v with
      | str s =>
          simp only [goodVal] at hp
          simp only [List.cons_append, dictLoop, hp, if_true]
          exact ih _ htail
      | bytes b =>
          simp only [List.cons_append, dictLoop]
          exact ih _ htail
      | list xs => simp [goodVal] at hp
      | dict kvs => simp [goodVal] at hp
      | other tn => simp [goodVal] at hp

theorem lookupA_nil {β : Type} (key : String) :
    lookupA ([] : List (String × β)) key = none := rfl

theorem lookupA_single {β : Type} (k key : String) (v : β) :
    lookupA [(k, v)] key = if key = k then some v else none := rfl

theorem setKw_single (k : String) (v v2 : PyVal) :
    setKw [(k, v)] k v2 = [(k, v2)] := by
  simp [setKw]

theorem normalizeLoop_cons (fs : FS) (mt : String) (rest : List String)
    (kwargs : List (String × PyVal)) :
    normalizeLoop fs (mt :: rest) kwargs =
      match lookupA kwargs mt with
      | none => normalizeLoop fs rest kwargs
      | some v =>
          match processOne fs mt v with
          | .error e => .error e
          | .ok (.inl s) => .ok (.inl s)
          | .ok (.inr v2) => normalizeLoop fs rest (setKw kwargs mt v2) := rfl

theorem normalizeLoop_nil (fs : FS) (kwargs : List (String × PyVal)) :
    normalizeLoop fs [] kwargs = .ok (.inr kwargs) := rfl

theorem processOne_images_empty (fs : FS) :
    processOne fs "images" (.list []) =
      .ok (.inl "No images provided. For images, use the camera tool to capture an image first.") := by
  simp [processOne]

theorem processOne_audios_empty (fs : FS) :
    processOne fs "audios" (.list []) =
      .ok (.inl "No audios provided. For audios, use the microphone tool to record an audio first.") := by
  simp [processOne]

theorem processOne_str_notfound (fs : FS) (mt s : String)
    (h1 : fs.pathExists s = false)
    (h2 : fs.pathExists (String.mk (s.data.dropWhile (fun c => c == '.'))) = false) :
    processOne fs mt (.str s) =
      .ok (.inl ("File not found: " ++ String.mk (s.data.dropWhile (fun c => c == '.')))) := by
  simp [processOne, h1, h2]

theorem processOne_dict (fs : FS) (mt : String) (kvs : List (String × PyVal)) :
    processOne fs mt (.dict kvs) = dictLoop fs kvs (.dict kvs) := rfl

theorem normalizeMedia_single (fs : FS) (mt : String) (v : PyVal)
    (hmt : mt = "images" ∨ mt = "audios") :
    normalizeMedia fs [(mt, v)] =
      match processOne fs mt v with
      | .error e => .error e
      | .ok (.inl s) => .ok (.inl s)
      | .ok (.inr v2) => .ok (.inr [(mt, v2)]) := by
  cases hmt with
  | inl h =>
      subst h
      show normalizeLoop fs ["images", "audios"] [("images", v)] = _
      rw [normalizeLoop_cons, lookupA_single, if_pos rfl]
      show (match processOne fs "images" v with
            | Except.error e => Except.error e
            | Except.ok (Sum.inl s) => Except.ok (Sum.inl s)
            | Except.ok (Sum.inr v2) =>
                normalizeLoop fs ["audios"] (setKw [("images", v)] "images" v2)) = _
      cases hp : processOne fs "images" v with
      | error e => rfl
      | ok sv =>
          cases sv with
          | inl s => rfl
          | inr v2 =>
              show normalizeLoop fs ["audios"] (setKw [("images", v)] "images" v2) = _
              rw [setKw_single, normalizeLoop_cons, lookupA_single,
                if_neg (by decide : ¬("audios" : String) = "images")]
              rfl
  | inr h =>
      subst h
      show normalizeLoop fs ["images", "audios"] [("audios", v)] = _
      rw [normalizeLoop_cons, lookupA_single,
        if_neg (by decide : ¬("images" : String) = "audios")]
      show normalizeLoop fs ["audios"] [("audios", v)] = _
      rw [normalizeLoop_cons, lookupA_single, if_pos rfl]
      show (match processOne fs "audios" v with
            | Except.error e => Except.error e
            | Except.ok (Sum.inl s) => Except.ok (Sum.inl s)
            | Except.ok (Sum.inr v2) =>
                normalizeLoop fs [] (setKw [("audios", v)] "audios" v2)) = _
      cases hp : processOne fs "audios" v with
      | error e => rfl
      | ok sv =>
          cases sv with
          | inl s => rfl
          | inr v2 =>
              show normalizeLoop fs [] (setKw [("audios", v)] "audios" v2) = _
              rw [setKw_single, normalizeLoop_nil]

theorem toolHandlerCall_eq (fs : FS) (tp : List (String × PyVal) → ToolResponse)
    (td uid : String) (kwargs : List (String × PyVal)) :
    toolHandlerCall fs tp td uid kwargs =
      match normalizeMedia fs kwargs with
      | .error e => (.error e, 0)
      | .ok (.inl s) => (.ok (some s), 0)
      | .ok (.inr kw) => (decodeResponse td uid (tp kw), 1) := rfl

/-- C5: an empty ordered sequence for a recognized media argument aborts the
call immediately, returning the guidance string that names the acquisition
tool (camera for images, microphone for audio), with zero transport calls. -/
theorem c5_empty_media_guidance (fs : FS) (tp : List (String × PyVal) → ToolResponse)
    (td uid : String) (kwargs : List (String × PyVal)) :
    (lookupA kwargs "images" = some (.list []) →
      toolHandlerCall fs tp td uid kwargs =
        (.ok (some "No images provided. For images, use the camera tool to capture an image first."), 0))
    ∧ (lookupA kwargs "images" = none → lookupA kwargs "audios" = some (.list []) →
      toolHandlerCall fs tp td uid kwargs =
        (.ok (some "No audios provided. For audios, use the microphone tool to record an audio first."), 0)) := by
  constructor
  · intro h
    rw [toolHandlerCall_eq]
    have hn : normalizeMedia fs kwargs =
        .ok (.inl "No images provided. For images, use the camera tool to capture an image first.") := by
      show normalizeLoop fs ["images", "audios"] kwargs = _
      rw [normalizeLoop_cons, h]
      show (match processOne fs "images" (.list []) with
            | Except.error e => Except.error e
            | Except.ok (Sum.inl s) => Except.ok (Sum.inl s)
            | Except.ok (Sum.inr v2) =>
                normalizeLoop fs ["audios"] (setKw kwargs "images" v2)) = _
      rw [processOne_images_empty]
    rw [hn]
  · intro h1 h2
    rw [toolHandlerCall_eq]
    have hn : normalizeMedia fs kwargs =
        .ok (.inl "No audios provided. For audios, use the microphone tool to record an audio first.") := by
      show normalizeLoop fs ["images", "audios"] kwargs = _
      rw [normalizeLoop_cons, h1]
      show normalizeLoop fs ["audios"] kwargs = _
      rw [normalizeLoop_cons, h2]
      show (match processOne fs "audios" (.list []) with
            | Except.error e => Except.error e
            | Except.ok (Sum.inl s) => Except.ok (Sum.inl s)
            | Except.ok (Sum.inr v2) =>
                normalizeLoop fs [] (setKw kwargs "audios" v2)) = _
      rw [processOne_audios_empty]
    rw [hn]

theorem c5_witness :
    toolHandlerCall fsNone tp0 "tmp" "uid" [("images", PyVal.list [])] =
      (.ok (some "No images provided. For images, use the camera tool to capture an image first."), 0)
    ∧ toolHandlerCall fsNone tp0 "tmp" "uid" [("audios", PyVal.list [])] =
      (.ok (some "No audios provided. For audios, use the microphone tool to record an audio first."), 0) :=
  ⟨(c5_empty_media_guidance fsNone tp0 "tmp" "uid" [("images", PyVal.list [])]).1 rfl,
   (c5_empty_media_guidance fsNone tp0 "tmp" "uid" [("audios", PyVal.list [])]).2 rfl rfl⟩

/-- C2 (amended): a string media argument naming a non-existent path is
retried exactly once with ALL leading dots stripped (Python `lstrip('.')`),
not just a single one; if the fully stripped path is still absent the call
returns the "file not found" string naming the stripped path, with zero
transport calls. -/
theorem c2_file_not_found_after_dot_strip (fs : FS)
    (tp : List (String × PyVal) → ToolResponse) (td uid mt s : String)
    (hmt : mt = "images" ∨ mt = "audios")
    (h1 : fs.pathExists s = false)
    (h2 : fs.pathExists (String.mk (s.data.dropWhile (fun c => c == '.'))) = false) :
    toolHandlerCall fs tp td uid [(mt, .str s)] =
      (.ok (some ("File not found: " ++
        String.mk (s.data.dropWhile (fun c => c == '.')))), 0) := by
  rw [toolHandlerCall_eq, normalizeMedia_single fs mt _ hmt,
    processOne_str_notfound fs mt s h1 h2]

/-- C2 falsified as stated: on the filesystem whose only path is `.p`, the
argument `..p` is retried with every leading dot stripped (yielding `p`,
absent) and the call returns "File not found: p" — although the path with a
single leading dot stripped (`.p`) does exist, so under the claimed retry
rule the file would have been found. -/
theorem c2_counterexample :
    toolHandlerCall fsDotP tp0 "tmp" "uid" [("images", .str "..p")] =
      (.ok (some "File not found: p"), 0)
    ∧ fsDotP.pathExists (stripOneLeadingDot "..p") = true := by
  exact ⟨rfl, by decide⟩

theorem c2_witness :
    toolHandlerCall fsNone tp0 "tmp" "uid"
        [("images", .str "/definitely/missing/path.png")] =
      (.ok (some ("File not found: " ++
        String.mk (("/definitely/missing/path.png").data.dropWhile (fun c => c == '.')))), 0) :=
  c2_file_not_found_after_dot_strip fsNone tp0 "tmp" "uid" "images"
    "/definitely/missing/path.png" (Or.inl rfl) rfl rfl

/-- C1 (amended): for a mapping media argument the loop visits every value
of the mapping: each string value is opened directly as a path (no existence
check, no dot-strip retry — a missing file raises an exception) and each
bytes value is base64-encoded, each encoding overwriting the slot, so the
LAST string-or-bytes value wins; a value of any other type aborts the call
with the fixed string "Unsupported image type provided." (which does not
name the value's type), returned with zero transport calls. -/
theorem c1_mapping_last_value_wins (fs : FS)
    (tp : List (String × PyVal) → ToolResponse) (td uid mt : String)
    (hmt : mt = "images" ∨ mt = "audios") :
    (∀ (init : List (String × PyVal)) (lastp : String × PyVal),
        (∀ p ∈ init, goodVal fs p.2 = true) → goodVal fs lastp.2 = true →
        normalizeMedia fs [(mt, .dict (init ++ [lastp]))] =
          .ok (.inr [(mt, .list [.str (b64encode (valBytes fs lastp.2))])]))
    ∧ (∀ (pre : List (String × PyVal)) (k : String) (bad : PyVal)
          (rest : List (String × PyVal)),
        (∀ p ∈ pre, goodVal fs p.2 = true) → strOrBytes bad = false →
        toolHandlerCall fs tp td uid [(mt, .dict (pre ++ (k, bad) :: rest))] =
          (.ok (some "Unsupported image type provided."), 0)) := by
  constructor
  · intro init lastp hinit hlast
    rw [normalizeMedia_single fs mt _ hmt, processOne_dict,
      dictLoop_last_good fs init lastp _ hinit hlast]
  · intro pre k bad rest hpre hbad
    rw [toolHandlerCall_eq, normalizeMedia_single fs mt _ hmt, processOne_dict,
      dictLoop_unsupported fs pre k bad rest _ hpre hbad]

/-- C1 falsified as stated: a mapping holding the single missing path
`/missing` raises `FileNotFoundError` (no existence check, no message
string); a mapping with two byte values encodes the SECOND one (`AQ==`, the
base64 of byte 1), not the first (`AA==`, the base64 of byte 0). -/
theorem c1_counterexample :
    toolHandlerCall fsNone tp0 "tmp" "uid" [("images", .dict [("k", .str "/missing")])] =
      (.error (.fileNotFound "/missing"), 0)
    ∧ normalizeMedia fsNone [("images", .dict [("a", .bytes [0]), ("b", .bytes [1])])] =
        .ok (.inr [("images", .list [.str "AQ=="])])
    ∧ b64encode [0] = "AA==" := by
  exact ⟨rfl, rfl, rfl⟩

theorem c1_witness :
    normalizeMedia fsNone [("images", .dict ([("a", .bytes [0])] ++ [("b", .bytes [1])])) ] =
      .ok (.inr [("images", .list [.str (b64encode (valBytes fsNone (.bytes [1])))])])
    ∧ toolHandlerCall fsNone tp0 "tmp" "uid"
        [("images", .dict ([] ++ ("k", .other "int") :: []))] =
      (.ok (some "Unsupported image type provided."), 0) :=
  ⟨(c1_mapping_last_value_wins fsNone tp0 "tmp" "uid" "images" (Or.inl rfl)).1
      [("a", .bytes [0])] ("b", .bytes [1]) (by decide) (by decide),
   (c1_mapping_last_value_wins fsNone tp0 "tmp" "uid" "images" (Or.inl rfl)).2
      [] "k" (.other "int") [] (by decide) (by decide)⟩

/-- C6: response decoding considers only the first content item of a
multi-item response, a bare string response passes through unchanged, and a
first content item that is a text item yields exactly its string — both at
the decoder and end-to-end through a call with a stubbed transport. -/
theorem c6_first_content_item (td uid : String) :
    (∀ s, decodeResponse td uid (.bareStr s) = .ok (some s))
    ∧ (∀ t rest, decodeResponse td uid (.result (.multi (.text t :: rest))) = .ok (some t))
    ∧ (∀ c rest, decodeResponse td uid (.result (.multi (c :: rest))) =
        decodeResponse td uid (.result (.single c)))
    ∧ (∀ (fs : FS) (s : String),
        toolHandlerCall fs (fun _ => .bareStr s) td uid [] = (.ok (some s), 1))
    ∧ (∀ (fs : FS) (t : String) (rest : List ContentItem),
        toolHandlerCall fs (fun _ => .result (.multi (.text t :: rest))) td uid [] =
          (.ok (some t), 1)) :=
  ⟨fun _ => rfl, fun _ _ => rfl, fun _ _ => rfl, fun _ _ => rfl, fun _ _ _ => rfl⟩

/-- C10: composite keys are encoded as the concatenation
`name ++ "@" ++ address`, which is not injective: after registering `hB`
(name `x@y` at address `z`), looking up the distinct pair `("x", "y@z")`
returns that same invoker instead of the absent sentinel. -/
theorem c10_key_encoding_not_injective :
    getHandlerBy (register regEmpty hB) "x" "y@z" = some hB
    ∧ ((("x" : String), ("y@z" : String)) ≠ (("x@y" : String), ("z" : String))) := by
  exact ⟨by decide, by decide⟩

/-- C7 falsified as stated: `hA` has name `a@b` and address `c`; the pair
`("a", "b@c")` was never registered, yet `get_handler_by` returns `hA` for
it rather than `None`, because both pairs encode to the key `a@b@c`. -/
theorem c7_counterexample :
    getHandlerBy (register regEmpty hA) "a" "b@c" = some hA
    ∧ ((("a" : String), ("b@c" : String)) ≠ (("a@b" : String), ("c" : String))) := by
  exact ⟨by decide, by decide⟩

/-- C7 (amended): `get_handler_by(name, address)` returns the invoker most
recently registered under ANY pair whose encoded key
`name ++ "@" ++ address` equals that of the queried pair (a later
registration of the same encoded key silently replaces the earlier
invoker), and the absent sentinel when no registration has that encoded
key. -/
theorem c7_get_handler_by_latest_key_match (ts : List ToolHandler) (n u : String) :
    getHandlerBy (regFold ts) n u =
      (ts.filter (fun t => regKey t == n ++ "@" ++ u)).getLast? := by
  show (match lookupA (regFold ts).handlers (n ++ "@" ++ u) with
        | some t => some t
        | none => none) = _
  have h := lookup_regFold_handlers ts regEmpty (n ++ "@" ++ u)
  rw [regFold]
  rw [h]
  cases hl : (ts.filter (fun t => regKey t == n ++ "@" ++ u)).getLast? with
  | some t => rfl
  | none => rfl

/-- C3 falsified as stated: registering the same name at the same address
twice gives the name R = 2 load-balancing replicas (`urls["t"] = ["u","u"]`)
but `get_tool_items()` returns only one descriptor (the later one, which
replaced the earlier under the shared composite key), not R. -/
theorem c3_counterexample :
    getToolItems (register (register regEmpty hT1) hT2) = [hT2.tool_item]
    ∧ (getToolItems (register (register regEmpty hT1) hT2)).length = 1
    ∧ lookupA (register (register regEmpty hT1) hT2).urls "t" = some ["u", "u"] := by
  exact ⟨by decide, by decide, by decide⟩

/-- C3 (amended): `get_tool_items()` returns one descriptor per DISTINCT
encoded key `name ++ "@" ++ address`, in first-registration order — a
re-registration of an identical or colliding encoded key replaces the
stored descriptor in place instead of adding one — so a tool registered at
R addresses with R distinct encoded keys appears R times; when additionally
no name repeats (no name has more than one replica), the number of distinct
names returned equals the registry size. -/
theorem c3_get_tool_items_in_order (ts : List ToolHandler)
    (hkeys : (ts.map regKey).Nodup) :
    getToolItems (regFold ts) = ts.map (fun t => t.tool_item)
    ∧ ((ts.map (fun t => t.tool_item.name)).Nodup →
        (getToolItems (regFold ts)).length = regLen (regFold ts)
        ∧ ((getToolItems (regFold ts)).map ToolItem.name).Nodup) := by
  have hh : (regFold ts).handlers = ts.map (fun t => (regKey t, t)) := by
    have h := regFold_handlers_aux ts regEmpty (by simpa [regEmpty] using hkeys)
    rw [regFold, h]
    simp [regEmpty]
  have hitems : getToolItems (regFold ts) = ts.map (fun t => t.tool_item) := by
    rw [getToolItems, hh, List.map_map]
    rfl
  refine ⟨hitems, fun hnames => ⟨?_, ?_⟩⟩
  · have htools : (regFold ts).tools = ts.map (fun t => t.tool_item.name) := by
      have h := regFold_tools_aux ts regEmpty (by simpa [regEmpty] using hnames)
      rw [regFold, h]
      simp [regEmpty]
    rw [hitems, regLen, htools, List.length_map, List.length_map]
  · rw [hitems, List.map_map]
    simpa [Function.comp] using hnames

theorem c3_witness :
    getToolItems (regFold [hW1, hW2]) = [hW1.tool_item, hW2.tool_item]
    ∧ (getToolItems (regFold [hW1, hW2])).length = regLen (regFold [hW1, hW2]) :=
  ⟨(c3_get_tool_items_in_order [hW1, hW2] (by decide)).1,
   ((c3_get_tool_items_in_order [hW1, hW2] (by decide)).2 (by decide)).1⟩

/-- C4: for a name bound to a non-empty replica list, `get_url` returns a
member of that list whatever the random draw, every member is returned for
some draw, and an unknown name yields the absent sentinel `None`. -/
theorem c4_get_url_member (r : ToolRegistry) (name : String) :
    (∀ us, lookupA r.urls name = some us → us ≠ [] →
        (∀ rand, ∃ u, u ∈ us ∧ getUrl r name rand = some u)
      ∧ (∀ u, u ∈ us → ∃ rand, getUrl r name rand = some u))
    ∧ (lookupA r.urls name = none → ∀ rand, getUrl r name rand = none) := by
  constructor
  · intro us hus hne
    have hlen : 0 < us.length := List.length_pos.mpr hne
    constructor
    · intro rand
      have hlt : rand % us.length < us.length := Nat.mod_lt _ hlen
      refine ⟨us[rand % us.length], List.getElem_mem hlt, ?_⟩
      show (match lookupA r.urls name with
            | none => none
            | some us2 => us2[rand % us2.length]?) = _
      rw [hus]
      exact List.getElem?_eq_getElem hlt
    · intro u hu
      obtain ⟨i, hi, hgi⟩ := List.mem_iff_getElem.mp hu
      refine ⟨i, ?_⟩
      show (match lookupA r.urls name with
            | none => none
            | some us2 => us2[i % us2.length]?) = _
      rw [hus]
      show us[i % us.length]? = some u
      rw [Nat.mod_eq_of_lt hi, List.getElem?_eq_getElem hi, hgi]
  · intro hnone rand
    show (match lookupA r.urls name with
          | none => none
          | some us2 => us2[rand % us2.length]?) = _
    rw [hnone]

theorem c4_witness :
    (∃ u, u ∈ ["u1"] ∧ getUrl (regFold [hW1]) "t1" 0 = some u)
    ∧ getUrl (regFold [hW1]) "missing" 5 = none :=
  ⟨((c4_get_url_member (regFold [hW1]) "t1").1 ["u1"] (by decide) (by decide)).1 0,
   (c4_get_url_member (regFold [hW1]) "missing").2 (by decide) 5⟩

/-- C8: `register()` is idempotent on the name set — for a name not yet
registered, registering it at two different addresses leaves the registry
size unchanged after the first registration while the name's replica list
becomes exactly the two addresses. -/
theorem c8_register_idempotent_on_names (r : ToolRegistry) (t1 t2 : ToolHandler)
    (n : String) (h1 : t1.tool_item.name = n) (h2 : t2.tool_item.name = n)
    (hurl : t1.url ≠ t2.url)
    (hfreshT : n ∉ r.tools) (hfreshU : lookupA r.urls n = none) :
    regLen (register (register r t1) t2) = regLen (register r t1)
    ∧ lookupA (register (register r t1) t2).urls n = some [t1.url, t2.url] := by
  have hu1 : lookupA (register r t1).urls n = some [t1.url] := by
    rw [lookupA_register_urls, h1, if_pos rfl, hfreshU]
  have htools1 : (register r t1).tools = r.tools ++ [n] := by
    rw [register_tools, h1, if_neg hfreshT]
  constructor
  · have hmem : t2.tool_item.name ∈ (register r t1).tools := by
      rw [h2, htools1]
      exact List.mem_append_right _ (List.mem_singleton.mpr rfl)
    rw [regLen, regLen, register_tools (register r t1) t2, if_pos hmem]
  · rw [lookupA_register_urls, h2, if_pos rfl, hu1]
    rfl

theorem c8_witness :
    regLen (register (register regEmpty hW1) hW1b) = regLen (register regEmpty hW1)
    ∧ lookupA (register (register regEmpty hW1) hW1b).urls "t1" =
        some [hW1.url, hW1b.url] :=
  c8_register_idempotent_on_names regEmpty hW1 hW1b "t1" rfl rfl (by decide)
    (by decide) (by decide)

/-- C9: every registry reachable by `register` calls from the empty one
satisfies the invariants (each name in the replica-address map has a
non-empty address list; each composite key of the invoker map decomposes as
`name ++ "@" ++ url` with the name bound in the replica-address map), and
each `register` call is append-only: it removes no name, no address and no
invoker-map key. -/
theorem c9_registry_append_only_invariants :
    (∀ ts : List ToolHandler, RegInv (regFold ts))
    ∧ (∀ (r : ToolRegistry) (t : ToolHandler),
        (∀ n, n ∈ r.tools → n ∈ (register r t).tools)
      ∧ (∀ n us, lookupA r.urls n = some us →
            ∃ extra, lookupA (register r t).urls n = some (us ++ extra))
      ∧ (∀ k, k ∈ r.handlers.map Prod.fst →
            k ∈ (register r t).handlers.map Prod.fst)) := by
  constructor
  · intro ts
    exact regInv_fold ts regEmpty regInv_empty
  · intro r t
    exact ⟨fun n => register_tools_mono r t n,
           fun n us => register_urls_mono r t n us,
           fun k => register_handlers_keys_mono r t k⟩

theorem c9_witness :
    (∃ n u us, ("t1@u1" : String) = n ++ "@" ++ u
      ∧ lookupA (regFold [hW1]).urls n = some us)
    ∧ "t1" ∈ (register (regFold [hW1]) hW2).tools
    ∧ (∃ extra, lookupA (register (regFold [hW1]) hW2).urls "t1" =
        some (["u1"] ++ extra)) :=
  ⟨(c9_registry_append_only_invariants.1 [hW1]).2 "t1@u1" (by decide),
   (c9_registry_append_only_invariants.2 (regFold [hW1]) hW2).1 "t1" (by decide),
   (c9_registry_append_only_invariants.2 (regFold [hW1]) hW2).2.1 "t1" ["u1"] (by decide)⟩
